import Mathlib

set_option linter.unusedVariables false

/-!
Verification of the 3ioNetra conversational-guidance frontend against its
specification.  The repository sources under verification are the React
hooks and components (`useSession`, `parseResponseForVerses` in
`pages/index.tsx`, `PhaseIndicator`), together with the specified backend
orchestration core (phase state machine, crisis detector, query expander,
hybrid retriever, reranker), which is not part of the repository sources
and is therefore modelled from the specification where needed.

Strings are embedded as `List Char`; JavaScript regular expressions used by
the response parser are hand-compiled to decidable character-list
predicates, with the original regex recorded in each doc comment.
-/

namespace Netra

/-! ## Character classes (JavaScript semantics) -/

/-- JavaScript whitespace class `\s` (also the character set removed by
`String.prototype.trim`): space, tab, line feed, vertical tab, form feed,
carriage return, NBSP, Ogham space, the U+2000–U+200A range, line/paragraph
separators, narrow NBSP, medium mathematical space, ideographic space, BOM. -/
def isJsSpace (c : Char) : Bool :=
  c.toNat == 32 || c.toNat == 9 || c.toNat == 10 || c.toNat == 11 ||
  c.toNat == 12 || c.toNat == 13 || c.toNat == 0xA0 || c.toNat == 0x1680 ||
  (0x2000 ≤ c.toNat && c.toNat ≤ 0x200A) ||
  c.toNat == 0x2028 || c.toNat == 0x2029 || c.toNat == 0x202F ||
  c.toNat == 0x205F || c.toNat == 0x3000 || c.toNat == 0xFEFF

/-- The quote characters of the regex class `["'""]` in
`parseResponseForVerses`: ASCII double quote, apostrophe, and the left and
right curly double quotes U+201C / U+201D. -/
def isQuoteChar (c : Char) : Bool :=
  c.toNat == 34 || c.toNat == 39 || c.toNat == 0x201C || c.toNat == 0x201D

/-- The dash characters of the regex class `[-–—]`: hyphen-minus, en dash
U+2013, em dash U+2014. -/
def isDashChar (c : Char) : Bool :=
  c.toNat == 45 || c.toNat == 0x2013 || c.toNat == 0x2014

/-- Devanagari block `[ऀ-ॿ]`. -/
def isDevanagari (c : Char) : Bool :=
  0x0900 ≤ c.toNat && c.toNat ≤ 0x097F

/-- JavaScript `\d`. -/
def isDigitCh (c : Char) : Bool :=
  48 ≤ c.toNat && c.toNat ≤ 57

/-- JavaScript `\w` = `[A-Za-z0-9_]`, used for word boundaries `\b`. -/
def isWordCh (c : Char) : Bool :=
  (65 ≤ c.toNat && c.toNat ≤ 90) || (97 ≤ c.toNat && c.toNat ≤ 122) ||
  isDigitCh c || c.toNat == 95

/-! ## List-of-character utilities -/

/-- `beginsWith pat s` is true when `pat` is an initial segment of `s`. -/
def beginsWith : List Char → List Char → Bool
  | [], _ => true
  | _ :: _, [] => false
  | p :: ps, c :: cs => p == c && beginsWith ps cs

/-- `containsSeq pat s`: `pat` occurs as a contiguous subsequence of `s`
(the embedding of JavaScript `String.prototype.includes`). -/
def containsSeq (pat : List Char) : List Char → Bool
  | [] => beginsWith pat []
  | c :: cs => beginsWith pat (c :: cs) || containsSeq pat cs

/-- Split at the first occurrence of `pat`: returns the part before the
occurrence and the part after it, or `none` when `pat` does not occur. -/
def splitFirstAux (pat : List Char) : List Char → Option (List Char × List Char)
  | [] => if pat.isEmpty then some ([], []) else none
  | c :: cs =>
    if beginsWith pat (c :: cs) then some ([], (c :: cs).drop pat.length)
    else
      match splitFirstAux pat cs with
      | none => none
      | some (b, a) => some (c :: b, a)

/-- JavaScript `String.prototype.trim` (strips `isJsSpace` characters from
both ends). -/
def trimJs (l : List Char) : List Char :=
  ((l.dropWhile isJsSpace).reverse.dropWhile isJsSpace).reverse

/-- JavaScript `text.split('\n')` (always returns at least one piece). -/
def splitLinesCh : List Char → List (List Char)
  | [] => [[]]
  | c :: cs =>
    if c == '\n' then [] :: splitLinesCh cs
    else
      match splitLinesCh cs with
      | [] => [[c]]
      | l :: ls => (c :: l) :: ls

/-- JavaScript `lines.join('\n')`. -/
def joinLines : List (List Char) → List Char
  | [] => []
  | [l] => l
  | l :: l2 :: ls => l ++ '\n' :: joinLines (l2 :: ls)

/-- A piece of text free of line breaks (true for every piece produced by
`splitLinesCh`). -/
def noNewline (l : List Char) : Bool :=
  l.all (fun c => !(c == '\n'))

/-- Case-insensitively consume the literal `word` from the front of `s`,
returning the remainder. -/
def eatCaseless : List Char → List Char → Option (List Char)
  | [], s => some s
  | _ :: _, [] => none
  | w :: ws, c :: cs => if c.toLower == w.toLower then eatCaseless ws cs else none

/-- Drop leading JavaScript whitespace. -/
def dropSpaces (l : List Char) : List Char :=
  l.dropWhile isJsSpace

/-! ## The verse-line heuristics of `parseResponseForVerses`
(`frontend/pages/index.tsx`, `versePatterns`) -/

/-- Regex 1: `/[ऀ-ॿ]{3,}/` — the line contains a run of at least
three consecutive Devanagari characters. -/
def devanagariPattern : List Char → Bool
  | a :: b :: c :: rest =>
    (isDevanagari a && isDevanagari b && isDevanagari c) ||
      devanagariPattern (b :: c :: rest)
  | _ => false

/-- Helper for `quoteDashPattern`: somewhere in the list, a quote character
followed (after optional whitespace) by a dash character. -/
def hasQuoteThenDash : List Char → Bool
  | [] => false
  | c :: cs =>
    (isQuoteChar c &&
      (match dropSpaces cs with
       | d :: _ => isDashChar d
       | [] => false)) || hasQuoteThenDash cs

/-- Regex 2: `/^\s*["'""].*["'""]\s*[-–—]\s*/` — after leading whitespace an
opening quote, and later a closing quote followed by optional whitespace and
a dash.  Lines contain no line breaks, so `.` matches every character. -/
def quoteDashPattern (l : List Char) : Bool :=
  match dropSpaces l with
  | q :: rest => isQuoteChar q && hasQuoteThenDash rest
  | [] => false

/-- Regex 3: `/^\s*["'""].*["'""]\s*$/` — up to surrounding whitespace the
line starts and ends with a quote character (two distinct occurrences). -/
def strictQuotePattern (l : List Char) : Bool :=
  let t := trimJs l
  2 ≤ t.length && isQuoteChar (t.headD ' ') && isQuoteChar (t.getLastD ' ')

/-- Word-boundary check after a scripture name (`\b`): accept the remainder
only when it does not start with a word character. -/
def boundaryOk (rest : List Char) : Option (List Char) :=
  match rest with
  | [] => some []
  | c :: _ => if isWordCh c then none else some rest

/-- The alternation `(Bhagavad\s*Gita|Gita|Yoga\s*Sutra|Upanishad|Vedas?|Mahabharata|Ramayana)\b`
applied case-insensitively at the start of `body`: the remainders after every
alternative that matches and is followed by a word boundary. -/
def scriptureNameRemainders (body : List Char) : List (List Char) :=
  let two : List Char → List Char → Option (List Char) := fun w1 w2 =>
    match eatCaseless w1 body with
    | none => none
    | some r =>
      match eatCaseless w2 (dropSpaces r) with
      | none => none
      | some r2 => boundaryOk r2
  let one : List Char → Option (List Char) := fun w =>
    match eatCaseless w body with
    | none => none
    | some r => boundaryOk r
  [two "bhagavad".toList "gita".toList, one "gita".toList,
   two "yoga".toList "sutra".toList, one "upanishad".toList,
   one "vedas".toList, one "veda".toList,
   one "mahabharata".toList, one "ramayana".toList].filterMap id

/-- Regex 4:
`/^\s*\(\b(Bhagavad\s*Gita|Gita|Yoga\s*Sutra|Upanishad|Vedas?|Mahabharata|Ramayana)\b.*\d+.*\)\s*$/i`
— after trimming, a parenthesised scripture citation starting with one of
the scripture names and containing a digit before the closing parenthesis.
(The `\b` after `\(` always holds because every name starts with a letter.) -/
def scriptureParenPattern (l : List Char) : Bool :=
  let t := trimJs l
  match t with
  | c :: rest =>
    c == '(' && t.getLastD ' ' == ')' && 2 ≤ t.length &&
      (scriptureNameRemainders rest).any
        (fun r => r.dropLast.any isDigitCh)
  | [] => false

/-- Regex 5: `/^\s*(Chapter|Verse|Shloka|Sutra|Mantra)\s*\d/i` — after
leading whitespace one of the heading keywords, optional whitespace, and a
digit. -/
def headingNumberPattern (l : List Char) : Bool :=
  let b := dropSpaces l
  ["chapter", "verse", "shloka", "sutra", "mantra"].any fun w =>
    match eatCaseless w.toList b with
    | none => false
    | some r =>
      match dropSpaces r with
      | d :: _ => isDigitCh d
      | [] => false

/-- `versePatterns.some (p => p.test(line))` from the source, in the array's
order. -/
def isVerseLine (l : List Char) : Bool :=
  devanagariPattern l || quoteDashPattern l || strictQuotePattern l ||
  scriptureParenPattern l || headingNumberPattern l

/-! ## Segments and `parseResponseForVerses` -/

inductive SegType
  | text
  | verse
  deriving DecidableEq, Repr

structure Seg where
  type : SegType
  content : List Char
  deriving DecidableEq, Repr

/-- The reserved opening marker `[VERSE]`. -/
def openTag : List Char := "[VERSE]".toList

/-- The reserved closing marker `[/VERSE]`. -/
def closeTag : List Char := "[/VERSE]".toList

/-- One step of the regex loop `/\[VERSE\]([\s\S]*?)\[\/VERSE\]/g`: the text
before the opening marker, the (lazily captured) span up to the first
closing marker after it, and the remainder. -/
def findPair (s : List Char) : Option (List Char × List Char × List Char) :=
  match splitFirstAux openTag s with
  | none => none
  | some (b, r1) =>
    match splitFirstAux closeTag r1 with
    | none => none
    | some (cap, r2) => some (b, cap, r2)

theorem beginsWith_length {pat s : List Char} (h : beginsWith pat s = true) :
    pat.length ≤ s.length := by
  induction pat generalizing s with
  | nil => simp
  | cons p ps ih =>
    cases s with
    | nil => simp [beginsWith] at h
    | cons c cs =>
      simp only [beginsWith, Bool.and_eq_true] at h
      simpa [List.length] using Nat.succ_le_succ (ih h.2)

theorem splitFirstAux_length {pat s b a : List Char}
    (hpat : 0 < pat.length) (h : splitFirstAux pat s = some (b, a)) :
    a.length < s.length := by
  induction s generalizing b with
  | nil =>
    simp only [splitFirstAux, List.isEmpty_iff] at h
    rcases pat with _ | ⟨p, ps⟩
    · simp at hpat
    · simp at h
  | cons c cs ih =>
    simp only [splitFirstAux] at h
    by_cases hb : beginsWith pat (c :: cs) = true
    · simp only [hb, if_true] at h
      injection h with h1
      have h2 : a = (c :: cs).drop pat.length := by
        have := congrArg Prod.snd h1
        simpa using this.symm
      subst h2
      have := beginsWith_length hb
      simp only [List.length_drop]
      omega
    · simp only [hb] at h
      cases hs : splitFirstAux pat cs with
      | none => simp [hs] at h
      | some pr =>
        rcases pr with ⟨b', a'⟩
        simp only [hs] at h
        injection h with h1
        have ha : a = a' := by
          have := congrArg Prod.snd h1
          simpa using this.symm
        subst ha
        have := ih (b := b') hs
        simp only [List.length_cons]
        omega

theorem findPair_length {s b cap r2 : List Char}
    (h : findPair s = some (b, cap, r2)) : r2.length < s.length := by
  simp only [findPair] at h
  cases h1 : splitFirstAux openTag s with
  | none => simp [h1] at h
  | some pr1 =>
    rcases pr1 with ⟨b1, r1⟩
    simp only [h1] at h
    cases h2 : splitFirstAux closeTag r1 with
    | none => simp [h2] at h
    | some pr2 =>
      rcases pr2 with ⟨cap2, r2'⟩
      simp only [h2, Option.some.injEq] at h
      have hr : r2 = r2' := by
        have := congrArg (fun p => p.2.2) h
        simpa using this.symm
      subst hr
      have ha : r1.length < s.length :=
        splitFirstAux_length (by decide) h1
      have hb : r2.length < r1.length :=
        splitFirstAux_length (by decide) h2
      omega

/-- The `while ((match = regex.exec(text)) !== null)` loop of the tag-based
branch: for each matched pair, the preceding raw text (when its trim is
nonempty), then the trimmed captured span (when nonempty); when no further
pair matches, the remaining text (when its trim is nonempty). -/
def tagLoop (s : List Char) : List Seg :=
  match h : findPair s with
  | none => if (trimJs s).isEmpty then [] else [⟨SegType.text, s⟩]
  | some (b, cap, r2) =>
    (if (trimJs b).isEmpty then [] else [⟨SegType.text, b⟩]) ++
    (if (trimJs cap).isEmpty then [] else [⟨SegType.verse, trimJs cap⟩]) ++
    tagLoop r2
termination_by s.length
decreasing_by exact findPair_length h

/-- `currentText.length > 0` flush of the fallback loop. -/
def flushAcc (acc : List (List Char)) (rest : List Seg) : List Seg :=
  if acc.isEmpty then rest else ⟨SegType.text, joinLines acc⟩ :: rest

/-- The fallback `for (const line of lines)` loop: verse lines become verse
segments, other lines accumulate into text segments joined with newlines. -/
def fallbackLoop (acc : List (List Char)) : List (List Char) → List Seg
  | [] => flushAcc acc []
  | l :: ls =>
    if isVerseLine l then flushAcc acc (⟨SegType.verse, l⟩ :: fallbackLoop [] ls)
    else fallbackLoop (acc ++ [l]) ls

/-- `parseResponseForVerses` from `frontend/pages/index.tsx`: empty input
gives a single empty text segment; input containing `[VERSE]` uses the
tag-based extraction (falling back to one text segment holding the whole
input when that produces nothing); otherwise the per-line heuristics run. -/
def parseResponseForVerses (t : List Char) : List Seg :=
  if t.isEmpty then [⟨SegType.text, []⟩]
  else if containsSeq openTag t then
    let segs := tagLoop t
    if segs.isEmpty then [⟨SegType.text, t⟩] else segs
  else fallbackLoop [] (splitLinesCh t)

/-- The verse contents of a segment list, in order. -/
def verseContents (segs : List Seg) : List (List Char) :=
  segs.filterMap fun g => if g.type = SegType.verse then some g.content else none

/-- The text contents of a segment list, in order. -/
def textContents (segs : List Seg) : List (List Char) :=
  segs.filterMap fun g => if g.type = SegType.text then some g.content else none

/-! ## Spec-side definitions for the Response Parser claims -/

/-- Spec-side reading of the claim: the marker-delimited spans (trimmed,
nonempty ones) of a text, in order, taking for each occurrence of the
opening marker the lazily delimited span up to the next closing marker. -/
def markerSpans (s : List Char) : List (List Char) :=
  match h : findPair s with
  | none => []
  | some (_, cap, r2) =>
    (if (trimJs cap).isEmpty then [] else [trimJs cap]) ++ markerSpans r2
termination_by s.length
decreasing_by exact findPair_length h

/-- Spec-side reading of the claim's heuristic families: a quoted-line
pattern (a quoted line, with or without a trailing citation dash), a
script-specific character-range pattern (Devanagari), or a citation-shaped
parenthetical pattern. -/
def claimVerseLine (l : List Char) : Bool :=
  (quoteDashPattern l || strictQuotePattern l) || devanagariPattern l ||
    scriptureParenPattern l

/-- The amended heuristic families: the claim's three plus the
chapter/verse-heading pattern present in the source. -/
def amendedVerseLine (l : List Char) : Bool :=
  claimVerseLine l || headingNumberPattern l

theorem amendedVerseLine_eq (l : List Char) :
    amendedVerseLine l = isVerseLine l := by
  simp only [amendedVerseLine, claimVerseLine, isVerseLine]
  cases devanagariPattern l <;> cases quoteDashPattern l <;>
    cases strictQuotePattern l <;> cases scriptureParenPattern l <;>
    cases headingNumberPattern l <;> rfl

/-! ## Lemmas on the tag-based branch -/

theorem verseContents_append (a b : List Seg) :
    verseContents (a ++ b) = verseContents a ++ verseContents b := by
  simp [verseContents, List.filterMap_append]

theorem tagLoop_eq_none {s : List Char} (h : findPair s = none) :
    tagLoop s = if (trimJs s).isEmpty then [] else [⟨SegType.text, s⟩] := by
  rw [tagLoop]
  split
  · rfl
  · next heq => rw [h] at heq; cases heq

theorem tagLoop_eq_some {s b cap r2 : List Char}
    (h : findPair s = some (b, cap, r2)) :
    tagLoop s =
      (if (trimJs b).isEmpty then [] else [⟨SegType.text, b⟩]) ++
      (if (trimJs cap).isEmpty then [] else [⟨SegType.verse, trimJs cap⟩]) ++
      tagLoop r2 := by
  rw [tagLoop]
  split
  · next heq => rw [h] at heq; cases heq
  · next b' cap' r2' heq =>
    rw [h] at heq
    simp only [Option.some.injEq, Prod.mk.injEq] at heq
    obtain ⟨e1, e2, e3⟩ := heq
    subst e1; subst e2; subst e3
    rfl

theorem markerSpans_eq_none {s : List Char} (h : findPair s = none) :
    markerSpans s = [] := by
  rw [markerSpans]
  split
  · rfl
  · next heq => rw [h] at heq; cases heq

theorem markerSpans_eq_some {s b cap r2 : List Char}
    (h : findPair s = some (b, cap, r2)) :
    markerSpans s =
      (if (trimJs cap).isEmpty then [] else [trimJs cap]) ++ markerSpans r2 := by
  rw [markerSpans]
  split
  · next heq => rw [h] at heq; cases heq
  · next b' cap' r2' heq =>
    rw [h] at heq
    simp only [Option.some.injEq, Prod.mk.injEq] at heq
    obtain ⟨e1, e2, e3⟩ := heq
    subst e2; subst e3
    rfl

theorem verseContents_tagLoop (s : List Char) :
    verseContents (tagLoop s) = markerSpans s := by
  induction s using markerSpans.induct with
  | case1 s h =>
    rw [tagLoop_eq_none h, markerSpans_eq_none h]
    split <;> simp [verseContents]
  | case2 s b cap r2 h ih =>
    rw [tagLoop_eq_some h, markerSpans_eq_some h, verseContents_append,
      verseContents_append, ih]
    congr 1
    split <;> split <;> simp_all [verseContents]

/-! ## Lemmas on line splitting and joining -/

theorem splitLinesCh_ne_nil (t : List Char) : splitLinesCh t ≠ [] := by
  cases t with
  | nil => simp [splitLinesCh]
  | cons c cs =>
    simp only [splitLinesCh]
    split
    · simp
    · split <;> simp

theorem joinLines_cons (x : List Char) {ys : List (List Char)} (h : ys ≠ []) :
    joinLines (x :: ys) = x ++ '\n' :: joinLines ys := by
  cases ys with
  | nil => exact absurd rfl h
  | cons y ys => rfl

theorem joinLines_append {xs ys : List (List Char)} (hx : xs ≠ []) (hy : ys ≠ []) :
    joinLines (xs ++ ys) = joinLines xs ++ '\n' :: joinLines ys := by
  induction xs with
  | nil => exact absurd rfl hx
  | cons x xs ih =>
    cases xs with
    | nil =>
      cases ys with
      | nil => exact absurd rfl hy
      | cons y ys => simp [joinLines]
    | cons x2 xs2 =>
      have h1 : (x2 :: xs2) ++ ys ≠ [] := by simp
      rw [List.cons_append, joinLines_cons x h1,
        joinLines_cons x (by simp : x2 :: xs2 ≠ ([] : List (List Char))),
        ih (by simp)]
      simp

theorem joinLines_splitLinesCh (t : List Char) :
    joinLines (splitLinesCh t) = t := by
  induction t with
  | nil => rfl
  | cons c cs ih =>
    simp only [splitLinesCh]
    by_cases hc : c = '\n'
    · simp only [hc, beq_self_eq_true, if_true]
      rw [joinLines_cons [] (splitLinesCh_ne_nil cs), ih]
      simp
    · simp only [show (c == '\n') = false by simpa using hc, Bool.false_eq_true,
        if_false]
      cases hs : splitLinesCh cs with
      | nil => exact absurd hs (splitLinesCh_ne_nil cs)
      | cons l ls =>
        rw [hs] at ih
        cases ls with
        | nil => simpa [joinLines] using ih
        | cons l2 ls2 =>
          rw [joinLines_cons (c :: l) (by simp),
            joinLines_cons l (by simp : l2 :: ls2 ≠ ([] : List (List Char)))] at *
          simpa using ih

theorem noNewline_splitLinesCh (t : List Char) :
    ∀ l ∈ splitLinesCh t, noNewline l = true := by
  induction t with
  | nil => simp [splitLinesCh, noNewline]
  | cons c cs ih =>
    intro l hl
    simp only [splitLinesCh] at hl
    by_cases hc : c = '\n'
    · simp only [hc, beq_self_eq_true, if_true, List.mem_cons] at hl
      rcases hl with hl | hl
      · simp [hl, noNewline]
      · exact ih l hl
    · simp only [show (c == '\n') = false by simpa using hc, Bool.false_eq_true,
        if_false] at hl
      cases hs : splitLinesCh cs with
      | nil => exact absurd hs (splitLinesCh_ne_nil cs)
      | cons x xs =>
        rw [hs] at hl
        simp only [List.mem_cons] at hl
        rcases hl with hl | hl
        · subst hl
          have hx : noNewline x = true := ih x (by rw [hs]; simp)
          simp only [noNewline, List.all_cons, Bool.and_eq_true] at *
          exact ⟨by simpa using hc, hx⟩
        · exact ih l (by rw [hs]; simp [hl])

theorem splitLinesCh_noNewline {l : List Char} (h : noNewline l = true) :
    splitLinesCh l = [l] := by
  induction l with
  | nil => rfl
  | cons c cs ih =>
    simp only [noNewline, List.all_cons, Bool.and_eq_true] at h
    simp only [splitLinesCh, show (c == '\n') = false by simpa using h.1,
      Bool.false_eq_true, if_false]
    rw [ih (by simp [noNewline, h.2])]

theorem splitLinesCh_append_newline {l rest : List Char}
    (h : noNewline l = true) :
    splitLinesCh (l ++ '\n' :: rest) = l :: splitLinesCh rest := by
  induction l with
  | nil => simp [splitLinesCh]
  | cons c cs ih =>
    simp only [noNewline, List.all_cons, Bool.and_eq_true] at h
    simp only [List.cons_append, splitLinesCh,
      show (c == '\n') = false by simpa using h.1, Bool.false_eq_true, if_false]
    have ih2 := ih (by simp [noNewline, h.2])
    simp only [List.append_eq]
    rw [ih2]

theorem splitLinesCh_joinLines {ls : List (List Char)} (h : ls ≠ [])
    (hnl : ∀ l ∈ ls, noNewline l = true) :
    splitLinesCh (joinLines ls) = ls := by
  induction ls with
  | nil => exact absurd rfl h
  | cons l ls ih =>
    cases ls with
    | nil => simpa [joinLines] using splitLinesCh_noNewline (hnl l (by simp))
    | cons l2 ls2 =>
      rw [joinLines_cons l (by simp),
        splitLinesCh_append_newline (hnl l (by simp)),
        ih (by simp) (fun x hx => hnl x (by simp [hx]))]

/-! ## Lemmas on the fallback loop -/

theorem verseContents_flushAcc (acc : List (List Char)) (r : List Seg) :
    verseContents (flushAcc acc r) = verseContents r := by
  simp only [flushAcc]
  split <;> simp [verseContents]

theorem textContents_flushAcc (acc : List (List Char)) (r : List Seg) :
    textContents (flushAcc acc r) =
      (if acc.isEmpty then [] else [joinLines acc]) ++ textContents r := by
  simp only [flushAcc]
  split <;> simp [textContents]

theorem verseContents_fallbackLoop (ls : List (List Char)) :
    ∀ acc, verseContents (fallbackLoop acc ls) =
      ls.filter (fun l => isVerseLine l) := by
  induction ls with
  | nil =>
    intro acc
    rw [show fallbackLoop acc [] = flushAcc acc [] from rfl, verseContents_flushAcc]
    simp [verseContents]
  | cons l ls ih =>
    intro acc
    simp only [fallbackLoop]
    by_cases hv : isVerseLine l = true
    · rw [if_pos hv, verseContents_flushAcc]
      have h1 : verseContents (⟨SegType.verse, l⟩ :: fallbackLoop [] ls) =
          l :: verseContents (fallbackLoop [] ls) := by
        simp [verseContents]
      rw [h1, ih [], List.filter_cons]
      simp [hv]
    · rw [if_neg hv, ih (acc ++ [l]), List.filter_cons]
      simp [show isVerseLine l = false by simpa using hv]

theorem fallbackLoop_eq_nil {ls : List (List Char)} :
    ∀ {acc}, fallbackLoop acc ls = [] → acc = [] ∧ ls = [] := by
  induction ls with
  | nil =>
    intro acc h
    simp only [fallbackLoop, flushAcc] at h
    constructor
    · by_cases ha : acc.isEmpty
      · simpa using ha
      · rw [if_neg ha] at h; cases h
    · rfl
  | cons l ls ih =>
    intro acc h
    simp only [fallbackLoop] at h
    by_cases hv : isVerseLine l = true
    · rw [if_pos hv] at h
      simp only [flushAcc] at h
      split at h <;> cases h
    · rw [if_neg hv] at h
      have := ih h
      simp at this

theorem join_fallbackLoop (ls : List (List Char)) :
    ∀ acc, joinLines ((fallbackLoop acc ls).map Seg.content) =
      joinLines (acc ++ ls) := by
  induction ls with
  | nil =>
    intro acc
    simp only [fallbackLoop, flushAcc]
    split
    · next ha => simp_all [joinLines]
    · simp [joinLines]
  | cons l ls ih =>
    intro acc
    simp only [fallbackLoop]
    by_cases hv : isVerseLine l = true
    · rw [if_pos hv]
      have core : joinLines (Seg.content ⟨SegType.verse, l⟩ ::
          (fallbackLoop [] ls).map Seg.content) = joinLines (l :: ls) := by
        cases hls : ls with
        | nil => simp [fallbackLoop, flushAcc, joinLines]
        | cons l2 ls2 =>
          have hne : fallbackLoop [] ls ≠ [] := by
            intro hcon
            have := (fallbackLoop_eq_nil hcon).2
            rw [hls] at this
            cases this
          rw [← hls]
          rw [joinLines_cons _ (by simpa using hne),
            joinLines_cons l (by rw [hls]; simp), ih []]
          simp
      simp only [flushAcc]
      split
      · next ha =>
        have : acc = [] := by simpa using ha
        subst this
        simpa using core
      · next ha =>
        have hacc : acc ≠ [] := by simpa using ha
        rw [List.map_cons, joinLines_cons _ (by simp),
          joinLines_append hacc (by simp)]
        simpa using core
    · rw [if_neg hv, ih (acc ++ [l])]
      simp

theorem textContents_fallbackLoop (ls : List (List Char)) :
    ∀ acc, (∀ l ∈ acc, isVerseLine l = false ∧ noNewline l = true) →
      (∀ l ∈ ls, noNewline l = true) →
      ∀ c ∈ textContents (fallbackLoop acc ls),
        ∀ l ∈ splitLinesCh c, isVerseLine l = false := by
  induction ls with
  | nil =>
    intro acc hacc _ c hc l hl
    rw [show fallbackLoop acc [] = flushAcc acc [] from rfl,
      textContents_flushAcc] at hc
    simp only [textContents, List.filterMap_nil, List.append_nil] at hc
    split at hc
    · cases hc
    · next ha =>
      have hne : acc ≠ [] := by simpa using ha
      simp only [List.mem_singleton] at hc
      subst hc
      rw [splitLinesCh_joinLines hne (fun x hx => (hacc x hx).2)] at hl
      exact (hacc l hl).1
  | cons l0 ls ih =>
    intro acc hacc hls c hc l hl
    simp only [fallbackLoop] at hc
    by_cases hv : isVerseLine l0 = true
    · rw [if_pos hv, textContents_flushAcc] at hc
      rw [List.mem_append] at hc
      rcases hc with hc | hc
      · split at hc
        · cases hc
        · next ha =>
          have hne : acc ≠ [] := by simpa using ha
          simp only [List.mem_singleton] at hc
          subst hc
          rw [splitLinesCh_joinLines hne (fun x hx => (hacc x hx).2)] at hl
          exact (hacc l hl).1
      · have hc2 : c ∈ textContents (fallbackLoop [] ls) := by
          simpa [textContents] using hc
        exact ih [] (by simp) (fun x hx => hls x (by simp [hx])) c hc2 l hl
    · rw [if_neg hv] at hc
      refine ih (acc ++ [l0]) ?_ (fun x hx => hls x (by simp [hx])) c hc l hl
      intro x hx
      rw [List.mem_append] at hx
      rcases hx with hx | hx
      · exact hacc x hx
      · simp only [List.mem_singleton] at hx
        subst hx
        exact ⟨by simpa using hv, hls x (by simp)⟩

/-! ## Claim C2 -/

/-- Counterexample to claim C2 as stated: on the marker-free input
`Chapter 2 teaches detachment` the parser classifies the line as a verse
(it matches the chapter/verse-heading regex of the source), yet the line
matches none of the three heuristic families enumerated by the claim, which
would therefore classify it as text. -/
theorem c2_counterexample :
    parseResponseForVerses "Chapter 2 teaches detachment".toList =
      [⟨SegType.verse, "Chapter 2 teaches detachment".toList⟩] ∧
    claimVerseLine "Chapter 2 teaches detachment".toList = false := by
  constructor
  · decide
  · decide

/-- C2 (amended): for every generated text containing the reserved verse
marker, the parser's verse segments are exactly the marker-delimited spans;
for every text without the marker it falls back to per-line detection,
classifying a line as a verse exactly when it matches a quoted-line
pattern, the Devanagari character-range pattern, a citation-shaped
parenthetical pattern, or the chapter/verse-heading pattern, and as text
otherwise. -/
theorem c2_response_parser_amended (t : List Char) :
    (containsSeq openTag t = true →
      verseContents (parseResponseForVerses t) = markerSpans t) ∧
    (containsSeq openTag t = false →
      verseContents (parseResponseForVerses t) =
        (splitLinesCh t).filter (fun l => amendedVerseLine l) ∧
      ∀ c ∈ textContents (parseResponseForVerses t),
        ∀ l ∈ splitLinesCh c, amendedVerseLine l = false) := by
  constructor
  · intro hm
    cases t with
    | nil => exact absurd hm (by decide)
    | cons c cs =>
      have hp : parseResponseForVerses (c :: cs) =
          (if (tagLoop (c :: cs)).isEmpty then [⟨SegType.text, c :: cs⟩]
           else tagLoop (c :: cs)) := by
        simp [parseResponseForVerses, hm]
      rw [hp]
      by_cases hseg : (tagLoop (c :: cs)).isEmpty
      · rw [if_pos hseg]
        have h0 : tagLoop (c :: cs) = [] := by simpa using hseg
        have hv := verseContents_tagLoop (c :: cs)
        rw [h0] at hv
        simp only [verseContents, List.filterMap_nil] at hv ⊢
        rw [← hv]
        simp
      · rw [if_neg hseg]
        exact verseContents_tagLoop (c :: cs)
  · intro hm
    cases t with
    | nil => exact ⟨by decide, by decide⟩
    | cons c cs =>
      have hp : parseResponseForVerses (c :: cs) =
          fallbackLoop [] (splitLinesCh (c :: cs)) := by
        simp [parseResponseForVerses, hm]
      rw [hp]
      constructor
      · rw [verseContents_fallbackLoop _ []]
        exact List.filter_congr fun l _ => (amendedVerseLine_eq l).symm
      · intro cc hcc l hl
        rw [amendedVerseLine_eq]
        exact textContents_fallbackLoop _ [] (by simp)
          (noNewline_splitLinesCh _) cc hcc l hl

/-- Witness for C2 at concrete inputs: one text with markers, one without. -/
theorem c2_response_parser_amended_witness :
    verseContents (parseResponseForVerses "a[VERSE]om[/VERSE]b".toList) =
      markerSpans "a[VERSE]om[/VERSE]b".toList ∧
    verseContents (parseResponseForVerses "hi\nVerse 2 says\nbye".toList) =
      (splitLinesCh "hi\nVerse 2 says\nbye".toList).filter
        (fun l => amendedVerseLine l) :=
  ⟨(c2_response_parser_amended _).1 (by decide),
   ((c2_response_parser_amended _).2 (by decide)).1⟩

/-! ## Claim C9 -/

/-- C9: on marker-free input the parser is total, returns a non-empty
segment list whose contents, joined with a newline at each segment
boundary, reconstruct the input exactly; the empty string yields a single
empty text segment. -/
theorem c9_fallback_partition (t : List Char)
    (h : containsSeq openTag t = false) :
    parseResponseForVerses t ≠ [] ∧
    joinLines ((parseResponseForVerses t).map Seg.content) = t ∧
    parseResponseForVerses [] = [⟨SegType.text, []⟩] := by
  refine ⟨?_, ?_, rfl⟩
  · cases t with
    | nil => simp [parseResponseForVerses]
    | cons c cs =>
      have hp : parseResponseForVerses (c :: cs) =
          fallbackLoop [] (splitLinesCh (c :: cs)) := by
        simp [parseResponseForVerses, h]
      rw [hp]
      intro hcon
      exact splitLinesCh_ne_nil (c :: cs) (fallbackLoop_eq_nil hcon).2
  · cases t with
    | nil => rfl
    | cons c cs =>
      have hp : parseResponseForVerses (c :: cs) =
          fallbackLoop [] (splitLinesCh (c :: cs)) := by
        simp [parseResponseForVerses, h]
      rw [hp, join_fallbackLoop, List.nil_append, joinLines_splitLinesCh]

/-- Witness for C9 at a concrete two-line input. -/
theorem c9_fallback_partition_witness :
    parseResponseForVerses "hi\nthere".toList ≠ [] ∧
    joinLines ((parseResponseForVerses "hi\nthere".toList).map Seg.content) =
      "hi\nthere".toList ∧
    parseResponseForVerses [] = [⟨SegType.text, []⟩] :=
  c9_fallback_partition _ (by decide)

/-! ## The conversation phase enumeration and the `useSession` hook -/

/-- The phase union type of `ConversationalResponse` in the `useSession`
hook: `listening | clarification | answering | synthesis | guidance |
closure` — six values; `answering` is a legacy alias rendered like
`guidance` by the display components. -/
inductive Phase
  | listening
  | clarification
  | answering
  | synthesis
  | guidance
  | closure
  deriving DecidableEq, Repr

/-- The wire string of each phase, as written in the source union type. -/
def phaseName : Phase → String
  | .listening => "listening"
  | .clarification => "clarification"
  | .answering => "answering"
  | .synthesis => "synthesis"
  | .guidance => "guidance"
  | .closure => "closure"

/-- The six phase strings of the source union type, in declaration order. -/
def sourcePhaseNames : List String :=
  ["listening", "clarification", "answering", "synthesis", "guidance", "closure"]

/-- Spec-side: the claim's closed enumeration of exactly five phases
(`Listening, Clarification, Synthesis, Guidance, Closure`, in wire form). -/
def specPhaseNames : List String :=
  ["listening", "clarification", "synthesis", "guidance", "closure"]

/-- The core fields of `ConversationalResponse` (the optional citation,
source, product and flow-metadata payloads do not participate in session
state and are omitted). -/
structure ConversationalResponse where
  session_id : String
  phase : Phase
  response : String
  signals_collected : List (String × String)
  turn_count : Nat
  is_complete : Bool
  deriving DecidableEq, Repr

/-- The `SessionState` kept by the `useSession` hook. -/
structure SessionState where
  sessionId : Option String
  phase : Phase
  turnCount : Nat
  signalsCollected : List (String × String)
  isComplete : Bool
  deriving DecidableEq, Repr

/-- The optional user profile passed to the hook (all fields optional). -/
structure UserProfile where
  age_group : Option String
  gender : Option String
  profession : Option String
  profileName : Option String
  deriving DecidableEq, Repr

/-- The response of `POST /api/session/create` as read by `createSession`. -/
structure CreateResp where
  session_id : String
  phase : Phase
  deriving DecidableEq, Repr

/-- `createSession`: commits a fresh state from the create response. -/
def createSessionApply (r : CreateResp) : SessionState :=
  { sessionId := some r.session_id, phase := r.phase, turnCount := 0,
    signalsCollected := [], isComplete := false }

/-- The initial hook state, also restored by `resetSession`. -/
def resetSessionApply : SessionState :=
  { sessionId := none, phase := Phase.listening, turnCount := 0,
    signalsCollected := [], isComplete := false }

/-- The `/api/conversation` request body built by `sendMessage`. -/
structure ConversationRequest where
  session_id : String
  message : String
  language : String
  user_profile : Option UserProfile
  deriving DecidableEq, Repr

/-- The body construction in `sendMessage`: the profile field is attached
only when the hook's `session.turnCount === 0` and a profile is present
(`if (session.turnCount === 0 && userProfile) body.user_profile = userProfile`). -/
def buildConversationBody (st : SessionState) (sid message language : String)
    (userProfile : Option UserProfile) : ConversationRequest :=
  { session_id := sid, message := message, language := language,
    user_profile := if st.turnCount = 0 then userProfile else none }

/-- The outcome of the `/api/conversation` fetch: a parsed response, or a
failure (network error or non-ok status, which `sendMessage` turns into a
thrown error). -/
inductive FetchOutcome
  | ok (resp : ConversationalResponse)
  | fail (msg : String)
  deriving DecidableEq, Repr

/-- The `setSession` commit of a successful conversation response in
`sendMessage`: the state is replaced wholesale from the response fields. -/
def commitResponse (r : ConversationalResponse) : SessionState :=
  { sessionId := some r.session_id, phase := r.phase,
    turnCount := r.turn_count, signalsCollected := r.signals_collected,
    isComplete := r.is_complete }

/-- The `sendMessage` control flow: with no session id a session is created
first (`createSession`, whose failure aborts the call with an error);
the conversation response is committed only when ok, and a failed request
leaves the session state as it stood while setting the error field.
Returns the resulting session state and the error field. -/
def sendMessageFlow (st : SessionState) (create : Option CreateResp)
    (conv : FetchOutcome) : SessionState × Option String :=
  match st.sessionId with
  | some _ =>
    match conv with
    | .fail m => (st, some m)
    | .ok r => (commitResponse r, none)
  | none =>
    match create with
    | none => (st, some "Failed to create session")
    | some c =>
      match conv with
      | .fail m => (createSessionApply c, some m)
      | .ok r => (commitResponse r, none)

/-- The conversation document returned by
`GET /api/user/conversations/[id]` as read by `loadSession`; absent fields
are `none`. -/
structure ConversationDoc where
  session_id : Option String
  phase : Option Phase
  turn_count : Option Nat
  signals_collected : Option (List (String × String))
  is_complete : Option Bool
  messages : Option (List String)
  deriving DecidableEq, Repr

/-- JavaScript `a || b` on an optional string field (the empty string is
falsy and also falls back). -/
def strOr (o : Option String) (fb : String) : String :=
  match o with
  | some s => if s.isEmpty then fb else s
  | none => fb

/-- `data.turn_count || (data.messages ? data.messages.length : 0)` from
`loadSession`: a missing or zero stored count falls back to the message
count (or 0). -/
def loadedTurnCount (d : ConversationDoc) : Nat :=
  match d.turn_count with
  | some n => if n = 0 then (d.messages.map List.length).getD 0 else n
  | none => (d.messages.map List.length).getD 0

/-- The `setSession` commit of `loadSession`: the local session state is
replaced from the loaded conversation document (the previous state `st` is
discarded, not merged). -/
def loadSessionApply (st : SessionState) (sid : String)
    (d : ConversationDoc) : SessionState :=
  { sessionId := some (strOr d.session_id sid),
    phase := d.phase.getD Phase.listening,
    turnCount := loadedTurnCount d,
    signalsCollected := d.signals_collected.getD [],
    isComplete := d.is_complete.getD false }

/-! ## Claim C5 -/

/-- C5: the conversation request carries the user profile only when the
hook's `turnCount` is 0; on every request with a positive turn count the
profile is not taken from the request. -/
theorem c5_profile_first_turn_only (st : SessionState)
    (sid message language : String) (userProfile : Option UserProfile) :
    (0 < st.turnCount →
      (buildConversationBody st sid message language userProfile).user_profile
        = none) ∧
    (st.turnCount = 0 →
      (buildConversationBody st sid message language userProfile).user_profile
        = userProfile) := by
  constructor
  · intro h
    have h2 : st.turnCount ≠ 0 := by omega
    simp [buildConversationBody, h2]
  · intro h
    simp [buildConversationBody, h]

/-- Witness for C5 at turn counts 1 and 0. -/
theorem c5_profile_first_turn_only_witness :
    (buildConversationBody
      { sessionId := some "s1", phase := Phase.listening, turnCount := 1,
        signalsCollected := [], isComplete := false }
      "s1" "hello" "en"
      (some { age_group := some "young_adult", gender := none,
              profession := none, profileName := some "A" })).user_profile
      = none ∧
    (buildConversationBody
      { sessionId := some "s1", phase := Phase.listening, turnCount := 0,
        signalsCollected := [], isComplete := false }
      "s1" "hello" "en"
      (some { age_group := some "young_adult", gender := none,
              profession := none, profileName := some "A" })).user_profile
      = some { age_group := some "young_adult", gender := none,
               profession := none, profileName := some "A" } :=
  ⟨(c5_profile_first_turn_only _ _ _ _ _).1 (by decide),
   (c5_profile_first_turn_only _ _ _ _ _).2 rfl⟩

/-! ## Claim C6 -/

/-- Counterexample to claim C6 as stated: the source phase union contains a
sixth value, `answering`; committing a response that carries it produces a
session phase whose wire name lies outside the claim's five-value
enumeration. -/
theorem c6_counterexample :
    (sendMessageFlow
      { sessionId := some "s1", phase := Phase.listening, turnCount := 1,
        signalsCollected := [], isComplete := false }
      none
      (FetchOutcome.ok
        { session_id := "s1", phase := Phase.answering, response := "r",
          signals_collected := [], turn_count := 2,
          is_complete := false })).1.phase = Phase.answering ∧
    phaseName Phase.answering ∉ specPhaseNames := by
  constructor
  · rfl
  · decide

theorem phaseName_mem_source (p : Phase) : phaseName p ∈ sourcePhaseNames := by
  cases p <;> decide

/-- C6 (amended): the phase of every session and of every response is one
of exactly the six source values `listening, clarification, answering,
synthesis, guidance, closure` (a closed enumeration including the legacy
`answering`); every hook operation yields a phase in this set. -/
theorem c6_phase_closed_amended :
    sourcePhaseNames.Nodup ∧
    (∀ p : Phase, phaseName p ∈ sourcePhaseNames) ∧
    (∀ (st : SessionState) (create : Option CreateResp) (conv : FetchOutcome),
      phaseName (sendMessageFlow st create conv).1.phase ∈ sourcePhaseNames) ∧
    (∀ (st : SessionState) (sid : String) (d : ConversationDoc),
      phaseName (loadSessionApply st sid d).phase ∈ sourcePhaseNames) ∧
    (∀ r : CreateResp, phaseName (createSessionApply r).phase ∈ sourcePhaseNames) ∧
    phaseName resetSessionApply.phase ∈ sourcePhaseNames := by
  refine ⟨by decide, phaseName_mem_source, ?_, ?_, ?_, by decide⟩
  · intro st create conv
    exact phaseName_mem_source _
  · intro st sid d
    exact phaseName_mem_source _
  · intro r
    exact phaseName_mem_source _

/-! ## Claim C10 -/

/-- C10: a `sendMessage` call made with an existing session id whose
conversation request fails leaves the hook session state exactly as it
was and sets the error field; session state is committed only from a
successful response. -/
theorem c10_failure_preserves_state (st : SessionState) (sid : String)
    (create : Option CreateResp) (m : String) (r : ConversationalResponse)
    (h : st.sessionId = some sid) :
    sendMessageFlow st create (FetchOutcome.fail m) = (st, some m) ∧
    sendMessageFlow st create (FetchOutcome.ok r) = (commitResponse r, none) := by
  constructor <;> simp [sendMessageFlow, h]

/-- Witness for C10 on a concrete existing session. -/
theorem c10_failure_preserves_state_witness :
    sendMessageFlow
      { sessionId := some "s9", phase := Phase.guidance, turnCount := 3,
        signalsCollected := [("domain", "work")], isComplete := false }
      none (FetchOutcome.fail "Conversation failed") =
      ({ sessionId := some "s9", phase := Phase.guidance, turnCount := 3,
         signalsCollected := [("domain", "work")], isComplete := false },
       some "Conversation failed") ∧
    sendMessageFlow
      { sessionId := some "s9", phase := Phase.guidance, turnCount := 3,
        signalsCollected := [("domain", "work")], isComplete := false }
      none (FetchOutcome.ok
        { session_id := "s9", phase := Phase.closure, response := "r",
          signals_collected := [("domain", "work")], turn_count := 4,
          is_complete := true }) =
      (commitResponse
        { session_id := "s9", phase := Phase.closure, response := "r",
          signals_collected := [("domain", "work")], turn_count := 4,
          is_complete := true }, none) :=
  c10_failure_preserves_state _ "s9" _ _ _ rfl

/-! ## The orchestration core, modelled from the spec

The backend (FastAPI orchestrator, phase state machine, crisis detector,
retrieval pipeline) is not among the repository sources; the following
definitions are modelled from the specification. -/

/-- Modelled from the spec: the per-session state owned by the backend
orchestration core between turns. -/
structure BackendSession where
  phase : Phase
  turnCount : Nat
  signals : List (String × String)
  isComplete : Bool
  deriving DecidableEq, Repr

/-- Modelled from the spec: external configuration — the crisis keyword
set and the phase thresholds (not hardcoded logic). -/
structure PipelineCfg where
  crisisKeywords : List String
  signalThreshold : Nat
  maxListenTurns : Nat
  deriving DecidableEq, Repr

/-- Modelled from the spec: the outcome of the external collaborators for
one turn — the extracted signals, retrieval availability, the generated
text (`none` when generation failed), and whether the generated guidance
type indicates finality. -/
structure TurnEnv where
  extracted : List (String × String)
  retrievalOk : Bool
  generated : Option String
  guidanceFinal : Bool
  deriving DecidableEq, Repr

/-- Modelled from the spec: the Crisis Detector — a pure, case-insensitive
keyword scan of the utterance with no external call. -/
def crisisDetect (keywords : List String) (utterance : String) : Bool :=
  keywords.any fun k =>
    containsSeq (k.toList.map Char.toLower) (utterance.toList.map Char.toLower)

/-- Modelled from the spec: the fixed, pre-approved safety resource
message returned on a crisis short-circuit, never composed by the model. -/
def safetyMessage : String :=
  "You are not alone. Please reach out right now to someone you trust or to a crisis helpline, or call your local emergency number."

/-- Modelled from the spec: the fixed apology returned when retrieval or
generation fails after entering Synthesis. -/
def apologyMessage : String :=
  "I am sorry, I could not find the right words just now. Please try again."

/-- Modelled from the spec: signal merge — values for existing keys are
updated in place, new keys are appended; keys stay unique and the map
never shrinks. -/
def mergeSignals (stored extracted : List (String × String)) :
    List (String × String) :=
  extracted.foldl
    (fun acc kv =>
      if acc.any (fun q => q.1 == kv.1) then
        acc.map fun q => if q.1 == kv.1 then (q.1, kv.2) else q
      else acc ++ [kv])
    stored

/-- Modelled from the spec (§4.1): the phase decided after signal
extraction and before retrieval.  A turn after `Closure` re-enters
`Listening`; from `Listening`/`Clarification` the session advances to
`Synthesis` on an urgency signal, on reaching the signal threshold, or on
reaching the listening-turn cap; a resistance signal regresses
`Guidance`/`Synthesis` to `Listening`. -/
def phaseAfterSignals (cfg : PipelineCfg) (prev : Phase) (turnCount : Nat)
    (signalCount : Nat) (resistance urgency : Bool) : Phase :=
  let base := if prev = Phase.closure then Phase.listening else prev
  if base = Phase.listening ∨ base = Phase.clarification then
    if urgency = true ∨ cfg.signalThreshold ≤ signalCount ∨
        cfg.maxListenTurns ≤ turnCount then Phase.synthesis
    else base
  else if (base = Phase.guidance ∨ base = Phase.synthesis) ∧ resistance = true then
    Phase.listening
  else base

/-- Modelled from the spec: the result of processing one turn; the two
flags record whether the retrieval and generation stages were reached. -/
structure TurnResult where
  session : BackendSession
  response : String
  usedRetrieval : Bool
  usedGeneration : Bool
  deriving DecidableEq, Repr

/-- Modelled from the spec (§2, §4.1, §4.3, §7): one turn of the pipeline.
The Crisis Detector runs first and short-circuits the whole turn with the
fixed safety message, touching nothing.  Otherwise signals merge, the
phase machine decides; `Synthesis` triggers retrieval and generation and
collapses into `Guidance` (or `Closure` on a final guidance type) on
success, rolling back to the pre-synthesis phase on failure; listening-side
turns answer empathetically without retrieval.  `turn_count` increments on
every non-short-circuited turn, including degraded ones. -/
def processTurn (cfg : PipelineCfg) (env : TurnEnv) (utterance : String)
    (s : BackendSession) : TurnResult :=
  if crisisDetect cfg.crisisKeywords utterance then
    { session := s, response := safetyMessage,
      usedRetrieval := false, usedGeneration := false }
  else
    let signals2 := mergeSignals s.signals env.extracted
    let resistance := env.extracted.any fun kv => kv.1 == "resistance"
    let urgency := env.extracted.any fun kv => kv.1 == "urgency"
    let base := if s.phase = Phase.closure then Phase.listening else s.phase
    let p2 := phaseAfterSignals cfg s.phase s.turnCount signals2.length
      resistance urgency
    if p2 = Phase.synthesis then
      if env.retrievalOk && env.generated.isSome then
        { session :=
            { phase := if env.guidanceFinal then Phase.closure else Phase.guidance,
              turnCount := s.turnCount + 1, signals := signals2,
              isComplete := env.guidanceFinal },
          response := (env.generated).getD "",
          usedRetrieval := true, usedGeneration := true }
      else
        { session :=
            { phase := base, turnCount := s.turnCount + 1,
              signals := signals2, isComplete := false },
          response := apologyMessage,
          usedRetrieval := true, usedGeneration := env.retrievalOk }
    else
      { session :=
          { phase := if p2 = Phase.guidance ∧ env.guidanceFinal then Phase.closure else p2,
            turnCount := s.turnCount + 1, signals := signals2,
            isComplete := p2 = Phase.guidance ∧ env.guidanceFinal },
        response := (env.generated).getD apologyMessage,
        usedRetrieval := false, usedGeneration := true }

theorem processTurn_crisis {cfg : PipelineCfg} {env : TurnEnv}
    {utterance : String} (s : BackendSession)
    (h : crisisDetect cfg.crisisKeywords utterance = true) :
    processTurn cfg env utterance s =
      { session := s, response := safetyMessage,
        usedRetrieval := false, usedGeneration := false } := by
  simp [processTurn, h]

theorem processTurn_turnCount_noCrisis {cfg : PipelineCfg} {env : TurnEnv}
    {utterance : String} (s : BackendSession)
    (h : crisisDetect cfg.crisisKeywords utterance = false) :
    (processTurn cfg env utterance s).session.turnCount = s.turnCount + 1 := by
  simp only [processTurn, h, Bool.false_eq_true, if_false]
  split
  · split <;> rfl
  · rfl

/-! ## Claim C1 -/

/-- C1: on every turn on which the Crisis Detector fires, in every phase,
the pipeline returns the fixed safety message, the session — phase,
signal map and turn count — is unchanged, and neither retrieval nor
generation is reached. -/
theorem c1_crisis_short_circuit (cfg : PipelineCfg) (env : TurnEnv)
    (utterance : String) (s : BackendSession)
    (h : crisisDetect cfg.crisisKeywords utterance = true) :
    processTurn cfg env utterance s =
      { session := s, response := safetyMessage,
        usedRetrieval := false, usedGeneration := false } :=
  processTurn_crisis s h

/-- Witness for C1: the spec scenario — utterance `I want to end it all`
on turn 1 in `Listening`, with a crisis keyword configuration. -/
theorem c1_crisis_short_circuit_witness :
    processTurn
      { crisisKeywords := ["end it all", "suicide"], signalThreshold := 3,
        maxListenTurns := 6 }
      { extracted := [("emotional_state", "despair")], retrievalOk := true,
        generated := some "reply", guidanceFinal := false }
      "I want to end it all"
      { phase := Phase.listening, turnCount := 0, signals := [],
        isComplete := false } =
      { session :=
          { phase := Phase.listening, turnCount := 0, signals := [],
            isComplete := false },
        response := safetyMessage, usedRetrieval := false,
        usedGeneration := false } :=
  c1_crisis_short_circuit _ _ _ _ (by decide)

/-! ## Claim C3 -/

/-- Counterexample to claim C3 as stated: loading an existing conversation
replaces `turn_count` with the stored document's value — here the hook
state held 5 and the loaded document stores 2, so `turn_count` decreases. -/
theorem c3_counterexample :
    (loadSessionApply
      { sessionId := some "s1", phase := Phase.guidance, turnCount := 5,
        signalsCollected := [("domain", "work")], isComplete := false }
      "s1"
      { session_id := some "s1", phase := some Phase.listening,
        turn_count := some 2, signals_collected := some [],
        is_complete := some false, messages := none }).turnCount = 2 ∧
    (2 : Nat) < 5 := by
  constructor
  · rfl
  · decide

theorem foldl_processTurn_turnCount (cfg : PipelineCfg)
    (turns : List (TurnEnv × String)) :
    ∀ s : BackendSession,
      (turns.foldl (fun st p => (processTurn cfg p.1 p.2 st).session) s).turnCount
        = s.turnCount +
          (turns.filter fun p => !crisisDetect cfg.crisisKeywords p.2).length := by
  induction turns with
  | nil => intro s; simp
  | cons p ps ih =>
    intro s
    simp only [List.foldl_cons, List.filter_cons]
    by_cases hc : crisisDetect cfg.crisisKeywords p.2 = true
    · rw [processTurn_crisis s hc, ih]
      simp [hc]
    · have hc2 : crisisDetect cfg.crisisKeywords p.2 = false := by
        simpa using hc
      rw [ih]
      rw [processTurn_turnCount_noCrisis s hc2]
      simp [hc2]
      omega

/-- C3 (amended): across any sequence of processed turns, `turn_count`
grows by exactly the number of non-short-circuited turns — so after N
successfully processed non-short-circuited turns from a fresh session it
equals N — and it never decreases under turn processing; `loadSession`,
however, replaces `turn_count` wholesale with the loaded document's stored
value (falling back to the message count), which need not preserve
monotonicity. -/
theorem c3_turn_count_amended (cfg : PipelineCfg)
    (turns : List (TurnEnv × String)) (s : BackendSession) :
    ((turns.foldl (fun st p => (processTurn cfg p.1 p.2 st).session) s).turnCount
      = s.turnCount +
        (turns.filter fun p => !crisisDetect cfg.crisisKeywords p.2).length) ∧
    (s.turnCount ≤
      (turns.foldl (fun st p => (processTurn cfg p.1 p.2 st).session) s).turnCount) ∧
    (∀ (st : SessionState) (sid : String) (d : ConversationDoc),
      (loadSessionApply st sid d).turnCount = loadedTurnCount d) := by
  refine ⟨foldl_processTurn_turnCount cfg turns s, ?_, fun st sid d => rfl⟩
  rw [foldl_processTurn_turnCount cfg turns s]
  omega

/-! ## The Query Expander, modelled from the spec -/

/-- First-occurrence deduplication, preserving order. -/
def dedupFirst : List String → List String
  | [] => []
  | a :: as => a :: (dedupFirst as).filter fun b => !(b == a)

theorem dedupFirst_nodup (l : List String) : (dedupFirst l).Nodup := by
  induction l with
  | nil => simp [dedupFirst]
  | cons a as ih =>
    simp only [dedupFirst, List.nodup_cons]
    constructor
    · intro hmem
      have := List.of_mem_filter hmem
      simp at this
    · exact List.Nodup.filter _ ih

/-- Modelled from the spec (§4.4): the Query Expander output — the verbatim
utterance is always element 0, followed by deduplicated reformulations
distinct from it, truncated to the configured maximum; when the external
paraphraser fails (`none`), exactly the singleton verbatim query. -/
def expandQueries (utterance : String) (reformulations : Option (List String))
    (maxQueries : Nat) : List String :=
  match reformulations with
  | none => [utterance]
  | some es =>
    utterance ::
      (((dedupFirst es).filter fun e => !(e == utterance)).take (maxQueries - 1))

/-! ## Claim C7 -/

/-- C7: for every input the Query Expander returns a non-empty,
deduplicated sequence whose element 0 is the verbatim utterance; when
expansion fails it returns exactly the singleton verbatim query, never an
empty sequence. -/
theorem c7_query_expander (utterance : String)
    (reformulations : Option (List String)) (maxQueries : Nat) :
    expandQueries utterance reformulations maxQueries ≠ [] ∧
    (expandQueries utterance reformulations maxQueries).head? = some utterance ∧
    (expandQueries utterance reformulations maxQueries).Nodup ∧
    (reformulations = none →
      expandQueries utterance reformulations maxQueries = [utterance]) := by
  cases reformulations with
  | none => exact ⟨by simp [expandQueries], by simp [expandQueries],
      by simp [expandQueries], fun _ => rfl⟩
  | some es =>
    refine ⟨by simp [expandQueries], by simp [expandQueries], ?_, by simp⟩
    simp only [expandQueries, List.nodup_cons]
    constructor
    · intro hmem
      have h1 := List.mem_of_mem_take hmem
      have h2 := List.of_mem_filter h1
      simp at h2
    · exact List.Nodup.sublist
        ((List.take_sublist _ _).trans (List.filter_sublist _))
        (dedupFirst_nodup es)

/-- Witness for C7: failed expansion yields exactly the verbatim query. -/
theorem c7_query_expander_witness :
    expandQueries "how to find peace" none 3 ≠ [] ∧
    (expandQueries "how to find peace" none 3).head? = some "how to find peace" ∧
    (expandQueries "how to find peace" none 3).Nodup ∧
    expandQueries "how to find peace" none 3 = ["how to find peace"] :=
  have h := c7_query_expander "how to find peace" none 3
  ⟨h.1, h.2.1, h.2.2.1, h.2.2.2 rfl⟩

/-! ## The Reranker, modelled from the spec -/

/-- Modelled from the spec (§4.6): the Reranker — candidates strictly below
the minimum relevance threshold are dropped entirely, the remainder is
ordered by descending relevance score and truncated to the top P; nothing
is padded back in. -/
def rerank (candidates : List (String × ℚ)) (threshold : ℚ) (topP : Nat) :
    List (String × ℚ) :=
  (List.insertionSort (fun a b => b.2 ≤ a.2)
    (candidates.filter fun c => threshold ≤ c.2)).take topP

/-! ## Claim C8 -/

/-- C8: no candidate below the configured minimum relevance threshold
appears in the final passage set; every returned candidate comes from the
input, the set is capped at P, and when every candidate is below the
threshold the result is empty rather than padded back up. -/
theorem c8_reranker_threshold (candidates : List (String × ℚ))
    (threshold : ℚ) (topP : Nat) :
    (∀ c ∈ rerank candidates threshold topP,
      threshold ≤ c.2 ∧ c ∈ candidates) ∧
    (rerank candidates threshold topP).length ≤ topP ∧
    ((∀ c ∈ candidates, c.2 < threshold) →
      rerank candidates threshold topP = []) := by
  refine ⟨?_, by simp [rerank], ?_⟩
  · intro c hc
    have h1 := List.mem_of_mem_take hc
    have h2 := (List.perm_insertionSort (fun a b : String × ℚ => b.2 ≤ a.2)
      (candidates.filter fun c => threshold ≤ c.2)).subset h1
    rw [List.mem_filter] at h2
    exact ⟨by simpa using h2.2, h2.1⟩
  · intro hall
    have hf : (candidates.filter fun c => threshold ≤ c.2) = [] := by
      rw [List.filter_eq_nil_iff]
      intro c hcmem
      have := hall c hcmem
      simp only [decide_eq_true_eq]
      exact not_le.2 this
    simp [rerank, hf]

/-- Witness for C8: a surviving candidate is above threshold and drawn
from the input, and an all-below-threshold input gives the empty set. -/
theorem c8_reranker_threshold_witness :
    ((3 : ℚ) ≤ ("a", (4 : ℚ)).2 ∧
      ("a", (4 : ℚ)) ∈ [("a", (4 : ℚ)), ("b", (1 : ℚ))]) ∧
    rerank [("gita-2.47", (1 : ℚ)), ("gita-3.5", (2 : ℚ))] ((3 : ℚ)) 5 = [] :=
  ⟨(c8_reranker_threshold [("a", (4 : ℚ)), ("b", (1 : ℚ))] 3 2).1
      ("a", (4 : ℚ)) (by decide),
   (c8_reranker_threshold [("gita-2.47", (1 : ℚ)), ("gita-3.5", (2 : ℚ))]
      3 5).2.2 (by decide)⟩

/-! ## The Hybrid Retriever, modelled from the spec -/

/-- Rational division computed on numerators and denominators, so that it
reduces inside the kernel; `ratDiv_eq_div` shows it is ordinary division. -/
def ratDiv (a b : ℚ) : ℚ :=
  Rat.divInt (a.num * (b.den : Int)) ((a.den : Int) * b.num)

theorem ratDiv_eq_div (a b : ℚ) : ratDiv a b = a / b := by
  rcases eq_or_ne b 0 with hb | hb
  · subst hb
    simp [ratDiv]
  · have hbn : (b.num : ℚ) ≠ 0 := by
      exact_mod_cast Rat.num_ne_zero.2 hb
    have hbd : ((b.den : ℚ)) ≠ 0 := by
      exact_mod_cast b.den_nz
    have had : ((a.den : ℚ)) ≠ 0 := by
      exact_mod_cast a.den_nz
    rw [ratDiv, Rat.divInt_eq_div]
    push_cast
    conv_rhs => rw [← Rat.num_div_den a, ← Rat.num_div_den b]
    field_simp

/-- Rational multiplication computed on numerators and denominators, so
that it reduces inside the kernel; `ratMul_eq_mul` shows it is ordinary
multiplication. -/
def ratMul (a b : ℚ) : ℚ :=
  Rat.divInt (a.num * b.num) ((a.den : Int) * (b.den : Int))

theorem ratMul_eq_mul (a b : ℚ) : ratMul a b = a * b := by
  have had : ((a.den : ℚ)) ≠ 0 := by
    exact_mod_cast a.den_nz
  have hbd : ((b.den : ℚ)) ≠ 0 := by
    exact_mod_cast b.den_nz
  rw [ratMul, Rat.divInt_eq_div]
  push_cast
  conv_rhs => rw [← Rat.num_div_den a, ← Rat.num_div_den b]
  field_simp

/-- Rational addition computed on numerators and denominators, so that it
reduces inside the kernel; `ratAdd_eq_add` shows it is ordinary addition. -/
def ratAdd (a b : ℚ) : ℚ :=
  Rat.divInt (a.num * (b.den : Int) + b.num * (a.den : Int))
    ((a.den : Int) * (b.den : Int))

theorem ratAdd_eq_add (a b : ℚ) : ratAdd a b = a + b := by
  have had : ((a.den : ℚ)) ≠ 0 := by
    exact_mod_cast a.den_nz
  have hbd : ((b.den : ℚ)) ≠ 0 := by
    exact_mod_cast b.den_nz
  rw [ratAdd, Rat.divInt_eq_div]
  push_cast
  conv_rhs => rw [← Rat.num_div_den a, ← Rat.num_div_den b]
  field_simp

/-- Combine two optional scores, keeping the maximum when both exist. -/
def optMax : Option ℚ → Option ℚ → Option ℚ
  | none, b => b
  | some v, none => some v
  | some v, some w => some (max v w)

theorem optMax_none_right (a : Option ℚ) : optMax a none = a := by
  cases a <;> rfl

theorem optMax_assoc (a b c : Option ℚ) :
    optMax (optMax a b) c = optMax a (optMax b c) := by
  cases a <;> cases b <;> cases c <;> simp [optMax, max_assoc]

/-- The best (maximum) score observed for a key in a list of scored
candidates, `none` when the key is absent. -/
def maxObs : List (String × ℚ) → String → Option ℚ
  | [], _ => none
  | q :: obs, k =>
    if q.1 = k then optMax (some q.2) (maxObs obs k) else maxObs obs k

/-- The score of the first entry carrying a key. -/
def lookupScore : List (String × ℚ) → String → Option ℚ
  | [], _ => none
  | q :: acc, k => if q.1 = k then some q.2 else lookupScore acc k

/-- Modelled from the spec (§4.5): fold one fused observation into the
accumulator — an existing entry for the key keeps the maximum fused score,
a new key is appended in first-seen order. -/
def insertObs : List (String × ℚ) → String × ℚ → List (String × ℚ)
  | [], p => [p]
  | q :: acc, p =>
    if q.1 = p.1 then (q.1, max q.2 p.2) :: acc else q :: insertObs acc p

/-- Modelled from the spec: deduplicate scored candidates by reference
key, keeping the maximum fused score observed for each key. -/
def dedupMax (obs : List (String × ℚ)) : List (String × ℚ) :=
  obs.foldl insertObs []

theorem lookupScore_insertObs (acc : List (String × ℚ)) (p : String × ℚ)
    (k : String) :
    lookupScore (insertObs acc p) k =
      if p.1 = k then optMax (lookupScore acc k) (some p.2)
      else lookupScore acc k := by
  induction acc with
  | nil =>
    by_cases hk : p.1 = k <;> simp [insertObs, lookupScore, hk, optMax]
  | cons q acc ih =>
    by_cases hq : q.1 = p.1
    · by_cases hk : p.1 = k
      · simp [insertObs, hq, lookupScore, hk, hq.trans hk, optMax]
      · have hqk : ¬q.1 = k := fun h => hk (hq ▸ h)
        simp [insertObs, hq, lookupScore, hk, hqk]
    · by_cases hk : p.1 = k
      · have hqk : ¬q.1 = k := fun h => hq (h.trans hk.symm)
        simp [insertObs, hq, lookupScore, hk, hqk, ih]
      · by_cases hqk : q.1 = k
        · have hk2 : ¬k = p.1 := fun h => hk h.symm
          simp [insertObs, hq, lookupScore, hk, hqk, hk2]
        · simp [insertObs, hq, lookupScore, hk, hqk, ih]

theorem keys_insertObs (acc : List (String × ℚ)) (p : String × ℚ) :
    (insertObs acc p).map Prod.fst =
      if p.1 ∈ acc.map Prod.fst then acc.map Prod.fst
      else acc.map Prod.fst ++ [p.1] := by
  induction acc with
  | nil => simp [insertObs]
  | cons q acc ih =>
    by_cases hq : q.1 = p.1
    · simp [insertObs, hq]
    · have hpq : ¬p.1 = q.1 := fun h => hq h.symm
      simp only [insertObs, hq, if_false, List.map_cons, ih, List.mem_cons]
      by_cases hmem : p.1 ∈ acc.map Prod.fst
      · simp [hmem, hpq]
      · simp [hmem, hpq]

theorem keysNodup_insertObs {acc : List (String × ℚ)} (p : String × ℚ)
    (h : (acc.map Prod.fst).Nodup) :
    ((insertObs acc p).map Prod.fst).Nodup := by
  rw [keys_insertObs]
  split
  · exact h
  · next hmem =>
    refine List.Nodup.append h (List.nodup_singleton _) ?_
    simpa [List.disjoint_singleton] using hmem

theorem keysNodup_foldl (obs : List (String × ℚ)) :
    ∀ acc, (acc.map Prod.fst).Nodup →
      ((obs.foldl insertObs acc).map Prod.fst).Nodup := by
  induction obs with
  | nil => intro acc h; simpa using h
  | cons p ps ih => intro acc h; exact ih _ (keysNodup_insertObs p h)

theorem lookupScore_foldl (obs : List (String × ℚ)) :
    ∀ (acc : List (String × ℚ)) (k : String),
      lookupScore (obs.foldl insertObs acc) k =
        optMax (lookupScore acc k) (maxObs obs k) := by
  induction obs with
  | nil => intro acc k; simp [maxObs, optMax_none_right]
  | cons p ps ih =>
    intro acc k
    simp only [List.foldl_cons, maxObs]
    rw [ih, lookupScore_insertObs]
    by_cases hk : p.1 = k
    · simp [hk, optMax_assoc]
    · simp [hk]

theorem lookupScore_dedupMax (obs : List (String × ℚ)) (k : String) :
    lookupScore (dedupMax obs) k = maxObs obs k := by
  rw [dedupMax, lookupScore_foldl]
  rfl

theorem mem_lookupScore {acc : List (String × ℚ)} {p : String × ℚ}
    (hnd : (acc.map Prod.fst).Nodup) (hmem : p ∈ acc) :
    lookupScore acc p.1 = some p.2 := by
  induction acc with
  | nil => cases hmem
  | cons q acc ih =>
    rw [List.map_cons, List.nodup_cons] at hnd
    rcases List.mem_cons.1 hmem with h | h
    · subst h; simp [lookupScore]
    · have hq : ¬q.1 = p.1 := by
        intro hqe
        exact hnd.1 (hqe ▸ List.mem_map_of_mem Prod.fst h)
      simp [lookupScore, hq, ih hnd.2 h]

/-- Modelled from the spec (§4.5): normalize one channel result list's
scores to [0,1] by dividing by the list's maximum score (lists whose
maximum is 0 map to all-zero scores). -/
def normalizeScores (l : List (String × ℚ)) : List (String × ℚ) :=
  let m := l.foldl (fun acc q => max acc q.2) 0
  l.map fun q => (q.1, if m = 0 then 0 else ratDiv q.2 m)

/-- Modelled from the spec: fuse one expanded query's two channel results —
normalize each list independently, then give every key seen in either
channel the weighted sum of its best semantic and best keyword normalized
score (a channel where the key is absent contributes 0). -/
def fuseQuery (wSem wKey : ℚ) (sem keyw : List (String × ℚ)) :
    List (String × ℚ) :=
  let s := normalizeScores sem
  let k := normalizeScores keyw
  (dedupFirst (s.map Prod.fst ++ k.map Prod.fst)).map fun key =>
    (key, ratAdd (ratMul wSem ((maxObs s key).getD 0))
      (ratMul wKey ((maxObs k key).getD 0)))

/-- Modelled from the spec: the fused observations across all expanded
queries, in query order with the semantic channel first. -/
def fusedObservations (wSem wKey : ℚ)
    (queryResults : List (List (String × ℚ) × List (String × ℚ))) :
    List (String × ℚ) :=
  (queryResults.map fun qr => fuseQuery wSem wKey qr.1 qr.2).flatten

/-- Modelled from the spec: the Hybrid Retriever's fused result —
deduplicate by reference key keeping the maximum observed fused score,
then sort by descending fused score (stable, so ties keep first-seen
order). -/
def hybridFuse (wSem wKey : ℚ)
    (queryResults : List (List (String × ℚ) × List (String × ℚ))) :
    List (String × ℚ) :=
  List.insertionSort (fun a b => b.2 ≤ a.2)
    (dedupMax (fusedObservations wSem wKey queryResults))

/-! ## Claim C4 -/

/-- C4: in every fused result of the Hybrid Retriever no two candidates
share a reference key, and the candidate kept for a key carries the
maximum fused score observed for that key across all expanded queries and
channels. -/
theorem c4_fused_dedup (wSem wKey : ℚ)
    (queryResults : List (List (String × ℚ) × List (String × ℚ))) :
    ((hybridFuse wSem wKey queryResults).map Prod.fst).Nodup ∧
    ∀ p ∈ hybridFuse wSem wKey queryResults,
      maxObs (fusedObservations wSem wKey queryResults) p.1 = some p.2 := by
  have hperm := List.perm_insertionSort (fun a b : String × ℚ => b.2 ≤ a.2)
    (dedupMax (fusedObservations wSem wKey queryResults))
  have hnd : ((dedupMax (fusedObservations wSem wKey queryResults)).map
      Prod.fst).Nodup :=
    keysNodup_foldl _ [] (by simp)
  constructor
  · exact (hperm.map Prod.fst).nodup_iff.2 hnd
  · intro p hp
    rw [← lookupScore_dedupMax]
    exact mem_lookupScore hnd (hperm.subset hp)

/-- Witness for C4 on a concrete two-query result set in which the key `b`
is observed twice (fused scores 3/2 and 3): the kept candidate carries the
maximum, 3. -/
theorem c4_fused_dedup_witness :
    ((hybridFuse 3 2
      [([("a", 2), ("b", 1)], [("a", 1)]), ([("b", 3)], [])]).map
        Prod.fst).Nodup ∧
    maxObs (fusedObservations 3 2
      [([("a", 2), ("b", 1)], [("a", 1)]), ([("b", 3)], [])]) "b" = some 3 :=
  ⟨(c4_fused_dedup 3 2 _).1, (c4_fused_dedup 3 2 _).2 ("b", 3) (by decide)⟩

end Netra
